import Mathlib

/-!
Shallow embedding of the core of the protein secondary-structure prediction
repository (backend: `types.py`, `predictors.py`, `feature_extractor.py`,
`pipeline.py`), together with theorems settling the frozen claims about it.

Conventions of the embedding:
* Python `str` sequences are modelled as `List Char`; Python floats are
  modelled as exact rationals (`ℚ`).
* The two `ValueError` raise sites of the pipeline are modelled by the
  error type `PipelineError`, whose constructors carry the names the spec
  gives them (`EmptyInputError` for `"Sequence is empty."`,
  `NoModelSelectedError` for `"At least one model must be selected."`).
* Calls to the global `random` module (`random.choice`, `random.uniform`,
  `np.random.normal`) are modelled by explicitly injected draw streams
  (`Oracle`, `Metrics`, `NoiseSource`): every theorem quantifies over all
  possible draws, so it holds for every outcome of the randomness.
* Python's `round(x, n)` (and NumPy's `.round(n)`), which round half to
  even, are modelled exactly on `ℚ` by `pyRound`.
-/

/-- Error taxonomy of the pipeline: the spec's names for the two
`ValueError` raise sites in `pipeline.py`. -/
inductive PipelineError where
  | EmptyInputError : PipelineError
  | NoModelSelectedError : PipelineError
deriving DecidableEq

/-- Round-half-to-even to an integer, the rounding used by Python's builtin
`round` and NumPy's `round`. -/
def rhe (q : ℚ) : ℤ :=
  if q - ⌊q⌋ < 1/2 then ⌊q⌋
  else if 1/2 < q - ⌊q⌋ then ⌊q⌋ + 1
  else if ⌊q⌋ % 2 = 0 then ⌊q⌋ else ⌊q⌋ + 1

/-- Python's `round(q, n)` on exact rationals: scale by `10 ^ n`, round half
to even, scale back. -/
def pyRound (q : ℚ) (n : ℕ) : ℚ := (rhe (q * 10 ^ n) : ℚ) / 10 ^ n

/-- One predicted label for one sequence position from one model
(`types.py`, dataclass `ResiduePrediction`). -/
structure ResiduePrediction where
  position : ℕ
  residue : Char
  state : String
  confidence : ℚ
  model : String
deriving DecidableEq

/-- Aggregate quality metrics for one predictor run (`types.py`,
dataclass `ModelSummary`). -/
structure ModelSummary where
  name : String
  accuracy : ℚ
  precision : ℚ
  «recall» : ℚ
  notes : String
deriving DecidableEq

/-- Three parallel numeric sequences (`types.py`, dataclass
`FeatureProfile`); the `Dict[str, List[float]]` returned by
`FeatureExtractor.compute_profiles`, with its three fixed keys, is modelled
as this record directly. -/
structure FeatureProfile where
  hydrophobicity : List ℚ
  polarity : List ℚ
  molecular_weight : List ℚ
deriving DecidableEq

/-- The aggregate result of one pipeline run (`types.py`, dataclass
`PredictionResult`); `distribution : Dict[str, float]` is modelled as an
association list in Counter insertion order. -/
structure PredictionResult where
  residues : List ResiduePrediction
  distribution : List (String × ℚ)
  model_summaries : List ModelSummary
  feature_profile : FeatureProfile
deriving DecidableEq

/-- Injected randomness for `BasePredictor._generate_predictions`
(`predictors.py`): per loop index, the outcome of `random.choice(STATES)`
(as an index into `STATES`) and of `random.uniform(0.45, 0.98)` (as the
drawn value). -/
structure Oracle where
  stateDraw : ℕ → Fin 3
  confDraw : ℕ → ℚ

/-- Injected randomness for `BasePredictor.summarize` (`predictors.py`):
the three `random.uniform` draws. -/
structure Metrics where
  accuracyDraw : ℚ
  precisionDraw : ℚ
  recallDraw : ℚ

/-- Injected randomness for `FeatureExtractor.compute_profiles`
(`feature_extractor.py`): the three `np.random.normal(0, scale, length)`
arrays, as standard draws to be multiplied by each profile's scale. -/
structure NoiseSource where
  hydro : ℕ → ℚ
  polar : ℕ → ℚ
  weight : ℕ → ℚ

/-- All injected randomness one `PredictionPipeline.run` call consumes:
one `Oracle` per resolved predictor (by index), one `Metrics` per
predictor summary (by index), and the feature-extractor noise. -/
structure Oracles where
  pred : ℕ → Oracle
  metrics : ℕ → Metrics
  noise : NoiseSource

/-- The module-level tuple `STATES` of `predictors.py`. -/
def STATES : List String := ["α-Helix", "β-Sheet", "Coil"]

/-- Outcome of `random.choice(STATES)` for a given drawn index. -/
def chooseState (i : Fin 3) : String := STATES.get ⟨i.val, i.isLt⟩

/-- The three predictor classes of `predictors.py`. -/
inductive PredictorKind where
  | ruleBased : PredictorKind
  | decisionTree : PredictorKind
  | naiveBayes : PredictorKind
deriving DecidableEq

/-- The class attribute `name` of each predictor class (`predictors.py`). -/
def PredictorKind.name : PredictorKind → String
  | .ruleBased => "Rule-Based"
  | .decisionTree => "Decision Tree"
  | .naiveBayes => "Naive Bayes"

/-- Embedding of `BasePredictor._generate_predictions` (`predictors.py`,
lines 32..47): one record per character, `enumerate(sequence, start=1)`,
state and confidence drawn from the injected oracle. -/
def generatePredictions (sequence : List Char) (model_name : String) (o : Oracle) :
    List ResiduePrediction :=
  sequence.enum.map fun q =>
    { position := q.1 + 1
      residue := q.2
      state := chooseState (o.stateDraw (q.1 + 1))
      confidence := pyRound (o.confDraw (q.1 + 1)) 2
      model := model_name }

/-- Embedding of the `predict` method shared (verbatim, per class) by
`RuleBasedPredictor`, `DecisionTreePredictor` and `NaiveBayesPredictor`:
each calls `self._generate_predictions(sequence, self.name)`. -/
def predict (k : PredictorKind) (sequence : List Char) (o : Oracle) :
    List ResiduePrediction :=
  generatePredictions sequence k.name o

/-- Embedding of `BasePredictor.summarize` (`predictors.py`): placeholder
metrics, each a `round(random.uniform(..), 2)` on an injected draw. -/
def summarize (k : PredictorKind) (m : Metrics) : ModelSummary :=
  { name := k.name
    accuracy := pyRound m.accuracyDraw 2
    precision := pyRound m.precisionDraw 2
    «recall» := pyRound m.recallDraw 2
    notes := "Placeholder metrics" }

/-- The `mapping` dictionary lookup inside `build_predictors`
(`predictors.py`, lines 71..82). -/
def lookupPredictor (name : String) : Option PredictorKind :=
  if name = "Rule-Based" then some .ruleBased
  else if name = "Decision Tree" then some .decisionTree
  else if name = "Naive Bayes" then some .naiveBayes
  else none

/-- Embedding of `build_predictors` (`predictors.py`, lines 71..82): loop
over `selected`, `continue` on unknown names, append an instance of the
mapped class otherwise. -/
def build_predictors (selected : List String) : List PredictorKind :=
  selected.foldl
    (fun predictors name =>
      match lookupPredictor name with
      | none => predictors
      | some k => predictors ++ [k])
    []

/-- Embedding of `PredictionPipeline._build_predictors` (`pipeline.py`,
lines 44..49): reject an empty `names` list, then delegate to
`build_predictors`. -/
def buildPredictorsChecked (names : List String) :
    Except PipelineError (List PredictorKind) :=
  if names.isEmpty then Except.error PipelineError.NoModelSelectedError
  else Except.ok (build_predictors names)

/-- The comparison `(rec.position, rec.model) ≤ (rec'.position, rec'.model)`
on Python key tuples used by `merged.sort` in `_merge_predictions`:
lexicographic on position, then model name. -/
def predLeB (a b : ResiduePrediction) : Bool :=
  decide (a.position < b.position) ||
    (a.position == b.position && decide (a.model ≤ b.model))

/-- The same key comparison as a proposition. -/
def predLe (a b : ResiduePrediction) : Prop :=
  a.position < b.position ∨ (a.position = b.position ∧ a.model ≤ b.model)

/-- The accumulation loop of `PredictionPipeline._merge_predictions`
(`pipeline.py`, lines 51..58): `merged.extend(predictor.predict(sequence))`
for each predictor in order, each invocation consuming its own slice of the
injected randomness (indexed by the predictor's position in the list). -/
def mergeRaw (sequence : List Char) (o : ℕ → Oracle) :
    List PredictorKind → ℕ → List ResiduePrediction
  | [], _ => []
  | k :: ks, i => predict k sequence (o i) ++ mergeRaw sequence o ks (i + 1)

/-- Embedding of `PredictionPipeline._merge_predictions` (`pipeline.py`,
lines 51..58): concatenate all predictors' records, then
`merged.sort(key=lambda rec: (rec.position, rec.model))`. -/
def mergePredictions (sequence : List Char) (predictors : List PredictorKind)
    (o : ℕ → Oracle) : List ResiduePrediction :=
  (mergeRaw sequence o predictors 0).mergeSort predLeB

/-- One step of Python's `collections.Counter` construction: increment the
entry of key `s`, or append `(s, 1)` if the key is new (Counter preserves
first-insertion order of keys). -/
def counterAdd : List (String × ℕ) → String → List (String × ℕ)
  | [], s => [(s, 1)]
  | (t, c) :: rest, s =>
      if t = s then (t, c + 1) :: rest else (t, c) :: counterAdd rest s

/-- Python's `Counter(states)` as an insertion-ordered association list. -/
def stateCounter (states : List String) : List (String × ℕ) :=
  states.foldl counterAdd []

/-- Embedding of `PredictionPipeline._calc_distribution` (`pipeline.py`,
lines 60..64): `Counter(rec.state for rec in predictions)`, then
`total = sum(counter.values()) or 1`, then one percentage per counter item,
rounded to one decimal place. -/
def calcDistribution (predictions : List ResiduePrediction) : List (String × ℚ) :=
  let counter := stateCounter (predictions.map fun r => r.state)
  let s := (counter.map Prod.snd).sum
  let total := if s = 0 then 1 else s
  counter.map fun p => (p.1, pyRound ((p.2 : ℚ) / (total : ℚ) * 100) 1)

/-- The mutable state of `FeatureExtractor` (`feature_extractor.py`,
`__init__`): `window_size` and `smoothing`. -/
structure FeatureExtractor where
  window_size : ℤ
  smoothing : ℚ
deriving DecidableEq

/-- The `FeatureExtractor()` default construction: `window_size=7`,
`smoothing=0.5`. -/
def defaultExtractor : FeatureExtractor := { window_size := 7, smoothing := 1/2 }

/-- Embedding of `np.linspace(a, b, n)`: `n` evenly spaced points from `a`
to `b` inclusive (for `n = 1` the single point `a`; note the `i = 0` term
makes the formula below yield `a` in that case as well). -/
def linspace (a b : ℚ) (n : ℕ) : List ℚ :=
  (List.range n).map fun i : ℕ => a + (b - a) * (i : ℚ) / ((n : ℚ) - 1)

/-- Embedding of `np.clip(x, 0, 1)`, elementwise. -/
def clip01 (q : ℚ) : ℚ := max 0 (min q 1)

/-- Embedding of the inner `noisy_profile(scale)` closure of
`FeatureExtractor.compute_profiles`: blend the baseline with a noisy
baseline by `smoothing`, clip to `[0, 1]`, round to 3 decimals. -/
def noisyProfile (smoothing : ℚ) (base : List ℚ) (scale : ℚ) (noise : ℕ → ℚ) :
    List ℚ :=
  base.enum.map fun q =>
    pyRound (clip01 ((1 - smoothing) * q.2 + smoothing * (q.2 + scale * noise q.1))) 3

/-- Embedding of `FeatureExtractor.compute_profiles`
(`feature_extractor.py`, lines 21..36): reject the empty sequence, build
the `np.linspace(0.2, 0.8, length)` baseline, and produce the three noisy
profiles. Note the body reads `self.smoothing` but never `self.window_size`. -/
def compute_profiles (e : FeatureExtractor) (sequence : List Char)
    (ns : NoiseSource) : Except PipelineError FeatureProfile :=
  if sequence.isEmpty then Except.error PipelineError.EmptyInputError
  else
    let base := linspace (1/5) (4/5) sequence.length
    Except.ok
      { hydrophobicity := noisyProfile e.smoothing base (15/100) ns.hydro
        polarity := noisyProfile e.smoothing base (12/100) ns.polar
        molecular_weight := noisyProfile e.smoothing base (18/100) ns.weight }

/-- The mutable state of `PredictionPipeline` (`pipeline.py`, `__init__`):
the shared `FeatureExtractor` instance. -/
structure PredictionPipeline where
  extractor : FeatureExtractor
deriving DecidableEq

/-- `PredictionPipeline()` as built by `__init__`. -/
def pipelineInit : PredictionPipeline := { extractor := defaultExtractor }

/-- The recognized configuration keys (`window_size`, `smoothing`) of the
`config` mapping; an absent key is `none`. A `config` dict carrying neither
key behaves identically to `None`, so `Option Config` captures all cases. -/
structure Config where
  window_size : Option ℤ
  smoothing : Option ℚ
deriving DecidableEq

/-- The mutation performed by `PredictionPipeline._build_feature_profile`
(`pipeline.py`, lines 66..74) on `self.extractor`: each supplied key
overwrites the corresponding field, in place. -/
def applyConfig (e : FeatureExtractor) (config : Option Config) : FeatureExtractor :=
  match config with
  | none => e
  | some c =>
      let e1 :=
        match c.window_size with
        | some w => { e with window_size := w }
        | none => e
      match c.smoothing with
      | some s => { e1 with smoothing := s }
      | none => e1

/-- Embedding of `PredictionPipeline.run` (`pipeline.py`, lines 19..42),
with the pipeline's (possibly mutated) state returned alongside the result:
reject an empty sequence, resolve predictors, merge predictions, compute
the distribution, collect summaries, apply config overrides to the shared
extractor (mutation), compute profiles, assemble the result. -/
def PredictionPipeline.run (p : PredictionPipeline) (sequence : List Char)
    (model_names : List String) (config : Option Config) (o : Oracles) :
    Except PipelineError PredictionResult × PredictionPipeline :=
  if sequence.isEmpty then (Except.error PipelineError.EmptyInputError, p)
  else
    match buildPredictorsChecked model_names with
    | Except.error e => (Except.error e, p)
    | Except.ok predictors =>
        let all_predictions := mergePredictions sequence predictors o.pred
        let distribution := calcDistribution all_predictions
        let summaries := predictors.enum.map fun q => summarize q.2 (o.metrics q.1)
        let e := applyConfig p.extractor config
        match compute_profiles e sequence o.noise with
        | Except.error err => (Except.error err, { extractor := e })
        | Except.ok profiles =>
            (Except.ok
              { residues := all_predictions
                distribution := distribution
                model_summaries := summaries
                feature_profile := profiles }, { extractor := e })

/-- Residues of a run outcome; the empty list on an error outcome. -/
def resultResidues : Except PipelineError PredictionResult → List ResiduePrediction
  | Except.ok r => r.residues
  | Except.error _ => []

/-- Hydrophobicity profile of a run outcome; empty on an error outcome. -/
def resultHydro : Except PipelineError PredictionResult → List ℚ
  | Except.ok r => r.feature_profile.hydrophobicity
  | Except.error _ => []

/-- A concrete all-zero draw oracle for witnesses. -/
def oracle0 : Oracle := { stateDraw := fun _ => 0, confDraw := fun _ => 0 }

/-- A concrete all-zero noise source. -/
def noise0 : NoiseSource := { hydro := fun _ => 0, polar := fun _ => 0, weight := fun _ => 0 }

/-- A concrete constant-one noise source (makes smoothing observable). -/
def noise1 : NoiseSource := { hydro := fun _ => 1, polar := fun _ => 1, weight := fun _ => 1 }

/-- Concrete randomness for witnesses: all-zero draws. -/
def oracles0 : Oracles :=
  { pred := fun _ => oracle0
    metrics := fun _ => { accuracyDraw := 0, precisionDraw := 0, recallDraw := 0 }
    noise := noise0 }

/-- Concrete randomness with constant-one extractor noise, so that the
smoothing value is observable in the profiles. -/
def oracles1 : Oracles :=
  { pred := fun _ => oracle0
    metrics := fun _ => { accuracyDraw := 0, precisionDraw := 0, recallDraw := 0 }
    noise := noise1 }

/-- A concrete config supplying only `smoothing = 0.9`. -/
def cfgSmooth9 : Option Config := some { window_size := none, smoothing := some (9/10) }

deriving instance DecidableEq for Except

/-- Number of records of the merged list carrying a given state (the
specification-level reading of one Counter entry). -/
def countState (s : String) (l : List ResiduePrediction) : ℕ :=
  (l.filter fun r => r.state == s).length

/-- Total count a counter association list assigns to a key (sum over all
entries with that key; a single entry once keys are duplicate-free). -/
def entryCount : List (String × ℕ) → String → ℕ
  | [], _ => 0
  | (t, c) :: rest, s => (if t = s then c else 0) + entryCount rest s

/-- Keys of a counter association list, in order. -/
def keysOf (lst : List (String × ℕ)) : List String := lst.map Prod.fst

/-- The `FeatureProfile` payload `compute_profiles` produces on a non-empty
sequence (named so run-unfolding equations can state it). -/
def profileBody (e : FeatureExtractor) (sequence : List Char) (ns : NoiseSource) :
    FeatureProfile :=
  { hydrophobicity := noisyProfile e.smoothing (linspace (1/5) (4/5) sequence.length) (15/100) ns.hydro
    polarity := noisyProfile e.smoothing (linspace (1/5) (4/5) sequence.length) (12/100) ns.polar
    molecular_weight := noisyProfile e.smoothing (linspace (1/5) (4/5) sequence.length) (18/100) ns.weight }

/-- Round-half-to-even of an integer value is that integer. -/
theorem rhe_intCast (n : ℤ) : rhe ((n : ℚ)) = n := by
  unfold rhe
  rw [Int.floor_intCast]
  norm_num

/-- Evaluation rule for `pyRound` when the scaled argument is an integer. -/
theorem pyRound_eval (q : ℚ) (n : ℕ) (z : ℤ) (h : q * 10 ^ n = (z : ℚ)) :
    pyRound q n = (z : ℚ) / 10 ^ n := by
  unfold pyRound
  rw [h, rhe_intCast]

/-- CLAIM C7: calling `run` with an empty sequence fails with
`EmptyInputError` for every pipeline state, every `model_names` list
(including the empty one, whose own error is therefore never reached) and
every config, with the pipeline state untouched: the emptiness check
precedes predictor resolution and invocation. -/
theorem c7_empty_sequence_rejected (p : PredictionPipeline) (names : List String)
    (config : Option Config) (o : Oracles) :
    PredictionPipeline.run p [] names config o =
      (Except.error PipelineError.EmptyInputError, p) := rfl

/-- CLAIM C10: `compute_profiles` never reads the stored `window_size`:
for the same smoothing and the same noise draws, any two window sizes
produce identical output. -/
theorem c10_window_size_independent (w1 w2 : ℤ) (s : ℚ) (seq : List Char)
    (ns : NoiseSource) :
    compute_profiles { window_size := w1, smoothing := s } seq ns =
      compute_profiles { window_size := w2, smoothing := s } seq ns := rfl

/-- CLAIM C4, counterexample: a predictor given the empty sequence does not
fail; it silently returns the empty prediction list. -/
theorem c4_empty_predict_counterexample :
    predict PredictorKind.ruleBased [] oracle0 = [] := rfl

/-- CLAIM C4 (amended): every predictor's `predict` on the empty sequence
returns the empty list (its type has no failure path at all); the empty
sequence is rejected, with `EmptyInputError`, only by the pipeline's `run`,
before any predictor is invoked. -/
theorem c4_amended (k : PredictorKind) (o : Oracle) (p : PredictionPipeline)
    (names : List String) (config : Option Config) (os : Oracles) :
    predict k [] o = [] ∧
      (PredictionPipeline.run p [] names config os).1 =
        Except.error PipelineError.EmptyInputError :=
  ⟨rfl, rfl⟩

/-- CLAIM C1, counterexample: with the non-empty sequence `"A"` and the
non-empty model list `["Unknown-Model"]` (which resolves to no predictor),
`run` does not raise `NoModelSelectedError`. -/
theorem c1_unknown_models_counterexample :
    (PredictionPipeline.run pipelineInit ['A'] ["Unknown-Model"] none oracles0).1 ≠
      Except.error PipelineError.NoModelSelectedError := by
  decide

/-- Accumulator-generalized shape of the `build_predictors` loop. -/
theorem foldl_lookup_append (selected : List String) (acc : List PredictorKind) :
    selected.foldl
        (fun predictors name =>
          match lookupPredictor name with
          | none => predictors
          | some k => predictors ++ [k])
        acc
      = acc ++ selected.filterMap lookupPredictor := by
  induction selected generalizing acc with
  | nil => simp
  | cons n rest ih =>
      cases h : lookupPredictor n
      · simp [List.foldl_cons, h, ih, List.filterMap_cons]
      · simp [List.foldl_cons, h, ih, List.filterMap_cons]

/-- CLAIM C3, counterexample: requesting the same known name twice yields
two predictor instances, while resolution after deduplication of the input
names (what the claim asserts) would yield one. -/
theorem c3_dedup_counterexample :
    build_predictors ["Rule-Based", "Rule-Based"] =
        [PredictorKind.ruleBased, PredictorKind.ruleBased] ∧
      build_predictors (["Rule-Based", "Rule-Based"] : List String).dedup =
        [PredictorKind.ruleBased] := by
  constructor <;> decide

/-- CLAIM C3 (amended): registry resolution does not deduplicate; it maps
the requested names through the registry lookup one occurrence at a time,
silently skipping names not in the registry and preserving the caller's
requested order (it is exactly `filterMap` of the registry lookup). -/
theorem c3_amended (selected : List String) :
    build_predictors selected = selected.filterMap lookupPredictor := by
  simpa [build_predictors] using foldl_lookup_append selected []

/-- The Boolean key comparison agrees with its propositional reading. -/
theorem predLeB_iff (a b : ResiduePrediction) : predLeB a b = true ↔ predLe a b := by
  simp [predLeB, predLe]

/-- Transitivity of the merge-sort key comparison. -/
theorem predLeB_trans (a b c : ResiduePrediction) (hab : predLeB a b = true)
    (hbc : predLeB b c = true) : predLeB a c = true := by
  rw [predLeB_iff] at hab hbc ⊢
  rcases hab with h1 | ⟨e1, m1⟩ <;> rcases hbc with h2 | ⟨e2, m2⟩
  · exact Or.inl (h1.trans h2)
  · exact Or.inl (e2 ▸ h1)
  · exact Or.inl (e1 ▸ h2)
  · exact Or.inr ⟨e1.trans e2, m1.trans m2⟩

/-- Totality of the merge-sort key comparison. -/
theorem predLeB_total (a b : ResiduePrediction) :
    (predLeB a b || predLeB b a) = true := by
  rcases lt_trichotomy a.position b.position with h | h | h
  · have : predLeB a b = true := (predLeB_iff a b).mpr (Or.inl h)
    simp [this]
  · rcases le_total a.model b.model with hm | hm
    · have : predLeB a b = true := (predLeB_iff a b).mpr (Or.inr ⟨h, hm⟩)
      simp [this]
    · have : predLeB b a = true := (predLeB_iff b a).mpr (Or.inr ⟨h.symm, hm⟩)
      simp [this]
  · have : predLeB b a = true := (predLeB_iff b a).mpr (Or.inl h)
    simp [this]

/-- The merged prediction list is sorted by the composite key. -/
theorem mergePredictions_chain (seq : List Char) (ks : List PredictorKind)
    (o : ℕ → Oracle) : List.Chain' predLe (mergePredictions seq ks o) :=
  ((List.sorted_mergeSort predLeB_trans predLeB_total
      (mergeRaw seq o ks 0)).imp fun h => (predLeB_iff _ _).mp h).chain'

/-- Unfolding equation of `run` on a non-empty sequence and non-empty
model-name list: no error path is taken and the shared extractor is
replaced by its config-overridden value. -/
theorem run_cons (p : PredictionPipeline) (a : Char) (as : List Char) (n : String)
    (ns' : List String) (config : Option Config) (o : Oracles) :
    PredictionPipeline.run p (a :: as) (n :: ns') config o =
      (Except.ok
          { residues := mergePredictions (a :: as) (build_predictors (n :: ns')) o.pred
            distribution :=
              calcDistribution (mergePredictions (a :: as) (build_predictors (n :: ns')) o.pred)
            model_summaries :=
              (build_predictors (n :: ns')).enum.map fun q => summarize q.2 (o.metrics q.1)
            feature_profile := profileBody (applyConfig p.extractor config) (a :: as) o.noise },
        { extractor := applyConfig p.extractor config }) := rfl

/-- CLAIM C5: the residues of every run outcome (the empty list on an error
outcome) are sorted by (`position` ascending, then `model` ascending,
lexicographic): no adjacent pair violates this order, for every predictor
invocation order and every randomness outcome. -/
theorem c5_residues_sorted (p : PredictionPipeline) (seq : List Char)
    (names : List String) (config : Option Config) (o : Oracles) :
    List.Chain' predLe (resultResidues (PredictionPipeline.run p seq names config o).1) := by
  cases seq with
  | nil => exact List.chain'_nil
  | cons a as =>
      cases names with
      | nil => exact List.chain'_nil
      | cons n ns' =>
          rw [run_cons]
          exact mergePredictions_chain (a :: as) (build_predictors (n :: ns')) o.pred

/-- Positions of one predictor's output are `1, 2, ..., len(sequence)`. -/
theorem gen_map_position (seq : List Char) (m : String) (o : Oracle) :
    (generatePredictions seq m o).map (fun r => r.position) =
      (List.range seq.length).map (· + 1) := by
  rw [generatePredictions, List.map_map, ← List.enum_map_fst seq, List.map_map]
  rfl

/-- Residues of one predictor's output are the input sequence verbatim. -/
theorem gen_map_residue (seq : List Char) (m : String) (o : Oracle) :
    (generatePredictions seq m o).map (fun r => r.residue) = seq := by
  conv_rhs => rw [← List.enum_map_snd seq]
  rw [generatePredictions, List.map_map]
  rfl

/-- One predictor emits one record per sequence character. -/
theorem generatePredictions_length (seq : List Char) (m : String) (o : Oracle) :
    (generatePredictions seq m o).length = seq.length := by
  simp [generatePredictions, List.enum_length]

/-- The concatenation loop of `_merge_predictions` emits
`#predictors * #characters` records. -/
theorem mergeRaw_length (seq : List Char) (o : ℕ → Oracle) :
    ∀ (ks : List PredictorKind) (i : ℕ),
      (mergeRaw seq o ks i).length = ks.length * seq.length := by
  intro ks
  induction ks with
  | nil => intro i; simp [mergeRaw]
  | cons k rest ih =>
      intro i
      simp only [mergeRaw, List.length_append, List.length_cons, predict,
        generatePredictions_length, ih]
      ring

/-- Sorting preserves the merged record count. -/
theorem mergePredictions_length (seq : List Char) (ks : List PredictorKind)
    (o : ℕ → Oracle) : (mergePredictions seq ks o).length = ks.length * seq.length := by
  simp [mergePredictions, List.length_mergeSort, mergeRaw_length]

/-- CLAIM C6: for a non-empty sequence and a non-empty resolved predictor
list, the run result carries `len(sequence) * #resolved` records; and every
predictor's prediction list has positions exactly `1, 2, ...,
len(sequence)` in order, with each residue copied verbatim from the
sequence. -/
theorem c6_per_predictor_contribution (p : PredictionPipeline) (seq : List Char)
    (names : List String) (config : Option Config) (o : Oracles)
    (k : PredictorKind) (or : Oracle)
    (hseq : seq ≠ []) (hres : build_predictors names ≠ []) :
    (resultResidues (PredictionPipeline.run p seq names config o).1).length =
        seq.length * (build_predictors names).length ∧
      (predict k seq or).map (fun r => r.position) =
        (List.range seq.length).map (· + 1) ∧
      (predict k seq or).map (fun r => r.residue) = seq := by
  have hnames : names ≠ [] := by
    intro h
    exact hres (by rw [h]; rfl)
  obtain ⟨a, as, rfl⟩ := List.exists_cons_of_ne_nil hseq
  obtain ⟨n, ns', rfl⟩ := List.exists_cons_of_ne_nil hnames
  refine ⟨?_, ?_, ?_⟩
  · rw [run_cons]
    simp only [resultResidues, mergePredictions_length]
    ring
  · rw [predict, gen_map_position]
  · rw [predict, gen_map_residue]

/-- Witness for C6 at a concrete input. -/
theorem c6_witness :
    (['A'] : List Char) ≠ [] ∧ build_predictors ["Rule-Based"] ≠ [] ∧
      ((resultResidues
            (PredictionPipeline.run pipelineInit ['A'] ["Rule-Based"] none oracles0).1).length =
          (['A'] : List Char).length * (build_predictors ["Rule-Based"]).length ∧
        (predict PredictorKind.ruleBased ['A'] oracle0).map (fun r => r.position) =
          (List.range (['A'] : List Char).length).map (· + 1) ∧
        (predict PredictorKind.ruleBased ['A'] oracle0).map (fun r => r.residue) = ['A']) :=
  ⟨by decide, by decide,
    c6_per_predictor_contribution pipelineInit ['A'] ["Rule-Based"] none oracles0
      PredictorKind.ruleBased oracle0 (by decide) (by decide)⟩

/-- CLAIM C1 (amended): the pipeline raises `NoModelSelectedError` only when
the requested name list itself is empty; a non-empty list of names that
resolves to no predictor is not rejected — `run` then returns a
`PredictionResult` with an empty residue list and empty distribution. -/
theorem c1_amended (p : PredictionPipeline) (seq : List Char) (names : List String)
    (config : Option Config) (o : Oracles)
    (hseq : seq ≠ []) (hnames : names ≠ []) (hres : build_predictors names = []) :
    (PredictionPipeline.run p seq [] config o).1 =
        Except.error PipelineError.NoModelSelectedError ∧
      ∃ result,
        (PredictionPipeline.run p seq names config o).1 = Except.ok result ∧
          result.residues = [] ∧ result.distribution = [] := by
  obtain ⟨a, as, rfl⟩ := List.exists_cons_of_ne_nil hseq
  obtain ⟨n, ns', rfl⟩ := List.exists_cons_of_ne_nil hnames
  have hmerge : mergePredictions (a :: as) (build_predictors (n :: ns')) o.pred = [] := by
    rw [hres]
    simp [mergePredictions, mergeRaw]
  refine ⟨rfl, ⟨_, by rw [run_cons], ?_, ?_⟩⟩
  · exact hmerge
  · show calcDistribution (mergePredictions (a :: as) (build_predictors (n :: ns')) o.pred) = []
    rw [hmerge]
    rfl

/-- Witness for the amended C1 at the spec's own scenario input. -/
theorem c1_amended_witness :
    (['A'] : List Char) ≠ [] ∧ (["Unknown-Model"] : List String) ≠ [] ∧
      build_predictors ["Unknown-Model"] = [] ∧
      ((PredictionPipeline.run pipelineInit ['A'] [] none oracles0).1 =
          Except.error PipelineError.NoModelSelectedError ∧
        ∃ result,
          (PredictionPipeline.run pipelineInit ['A'] ["Unknown-Model"] none oracles0).1 =
              Except.ok result ∧ result.residues = [] ∧ result.distribution = []) :=
  ⟨by decide, by decide, by decide,
    c1_amended pipelineInit ['A'] ["Unknown-Model"] none oracles0
      (by decide) (by decide) (by decide)⟩

/-- CLAIM C2 (amended): config overrides are applied by mutating the
pipeline's shared extractor, and the mutation persists: after any `run`
with a non-empty sequence and a non-empty model-name list, the pipeline's
extractor equals its previous value overridden by the supplied config keys,
so a later call inherits these values for every key its own config does not
supply. -/
theorem c2_amended (p : PredictionPipeline) (seq : List Char) (names : List String)
    (config : Option Config) (o : Oracles) (hseq : seq ≠ []) (hnames : names ≠ []) :
    (PredictionPipeline.run p seq names config o).2 =
      { extractor := applyConfig p.extractor config } := by
  obtain ⟨a, as, rfl⟩ := List.exists_cons_of_ne_nil hseq
  obtain ⟨n, ns', rfl⟩ := List.exists_cons_of_ne_nil hnames
  rw [run_cons]

/-- Witness for the amended C2 at a concrete input. -/
theorem c2_amended_witness :
    (['A'] : List Char) ≠ [] ∧ (["Rule-Based"] : List String) ≠ [] ∧
      (PredictionPipeline.run pipelineInit ['A'] ["Rule-Based"] none oracles0).2 =
        { extractor := applyConfig pipelineInit.extractor none } :=
  ⟨by decide, by decide,
    c2_amended pipelineInit ['A'] ["Rule-Based"] none oracles0 (by decide) (by decide)⟩

/-- Lower bound of round-half-to-even from an integer lower bound. -/
theorem le_rhe_of_le {x : ℚ} {a : ℤ} (ha : (a : ℚ) ≤ x) : a ≤ rhe x := by
  have hf : a ≤ ⌊x⌋ := Int.le_floor.mpr ha
  unfold rhe
  split_ifs <;> omega

/-- Upper bound of round-half-to-even from an integer upper bound. -/
theorem rhe_le_of_le {x : ℚ} {b : ℤ} (hb : x ≤ (b : ℚ)) : rhe x ≤ b := by
  have hf : ⌊x⌋ ≤ b := by
    have h := Int.floor_le_floor hb
    rwa [Int.floor_intCast] at h
  have hlt : x - ⌊x⌋ < 1/2 ∨ ⌊x⌋ < b := by
    rcases eq_or_lt_of_le hf with he | hl
    · left
      have hx : x - (⌊x⌋ : ℚ) ≤ 0 := by rw [he]; linarith
      linarith
    · right; exact hl
  unfold rhe
  split_ifs with h1 h2 h3
  · exact hf
  · rcases hlt with hc | hc
    · exact absurd hc h1
    · omega
  · exact hf
  · rcases hlt with hc | hc
    · exact absurd hc h1
    · omega

/-- Python rounding maps `[0, 1]` into `[0, 1]`. -/
theorem pyRound_mem_unit {q : ℚ} (n : ℕ) (h0 : 0 ≤ q) (h1 : q ≤ 1) :
    0 ≤ pyRound q n ∧ pyRound q n ≤ 1 := by
  have hp : (0 : ℚ) < 10 ^ n := by positivity
  have hl : ((0 : ℤ) : ℚ) ≤ q * 10 ^ n := by
    push_cast
    exact mul_nonneg h0 hp.le
  have hu : q * 10 ^ n ≤ ((10 ^ n : ℤ) : ℚ) := by
    push_cast
    calc q * 10 ^ n ≤ 1 * 10 ^ n := mul_le_mul_of_nonneg_right h1 hp.le
    _ = 10 ^ n := one_mul _
  have hlo := le_rhe_of_le hl
  have hhi := rhe_le_of_le hu
  constructor
  · exact div_nonneg (by exact_mod_cast hlo) hp.le
  · rw [pyRound, div_le_one hp]
    exact_mod_cast hhi

/-- Clipping to the unit interval is a lower bound by 0. -/
theorem clip01_nonneg (q : ℚ) : 0 ≤ clip01 q := le_max_left 0 _

/-- Clipping to the unit interval is an upper bound by 1. -/
theorem clip01_le_one (q : ℚ) : clip01 q ≤ 1 :=
  max_le (by norm_num) (min_le_right q 1)

/-- Clipping is the identity on values already inside the unit interval. -/
theorem clip01_eq_self {q : ℚ} (h0 : 0 ≤ q) (h1 : q ≤ 1) : clip01 q = q := by
  rw [clip01, min_eq_left h1, max_eq_right h0]

/-- A noisy profile is as long as its baseline. -/
theorem noisyProfile_length (s : ℚ) (base : List ℚ) (scale : ℚ) (noise : ℕ → ℚ) :
    (noisyProfile s base scale noise).length = base.length := by
  simp [noisyProfile, List.enum_length]

/-- The linspace baseline has the requested number of points. -/
theorem linspace_length (a b : ℚ) (n : ℕ) : (linspace a b n).length = n := by
  rw [linspace, List.length_map, List.length_range]

/-- Every noisy-profile value lies in the unit interval, for every noise
outcome: the clip step forces the bounds and the rounding keeps them. -/
theorem noisyProfile_mem_unit (s : ℚ) (base : List ℚ) (scale : ℚ) (noise : ℕ → ℚ) :
    ∀ q ∈ noisyProfile s base scale noise, 0 ≤ q ∧ q ≤ 1 := by
  intro q hq
  rw [noisyProfile, List.mem_map] at hq
  obtain ⟨r, _, rfl⟩ := hq
  exact pyRound_mem_unit 3 (clip01_nonneg _) (clip01_le_one _)

/-- CLAIM C9: on every non-empty sequence (and for every extractor state
and noise outcome), `compute_profiles` succeeds and yields three sequences
of length exactly `len(sequence)` whose values all lie in `[0, 1]`. -/
theorem c9_feature_profile (e : FeatureExtractor) (seq : List Char) (ns : NoiseSource)
    (h : seq ≠ []) :
    ∃ pr, compute_profiles e seq ns = Except.ok pr ∧
      pr.hydrophobicity.length = seq.length ∧
      pr.polarity.length = seq.length ∧
      pr.molecular_weight.length = seq.length ∧
      (∀ q ∈ pr.hydrophobicity, 0 ≤ q ∧ q ≤ 1) ∧
      (∀ q ∈ pr.polarity, 0 ≤ q ∧ q ≤ 1) ∧
      (∀ q ∈ pr.molecular_weight, 0 ≤ q ∧ q ≤ 1) := by
  have hne : seq.isEmpty = false := by
    cases seq with
    | nil => exact absurd rfl h
    | cons a as => rfl
  refine ⟨profileBody e seq ns, ?_, ?_, ?_, ?_, ?_, ?_, ?_⟩
  · simp [compute_profiles, hne, profileBody]
  · simp [profileBody, noisyProfile_length, linspace_length]
  · simp [profileBody, noisyProfile_length, linspace_length]
  · simp [profileBody, noisyProfile_length, linspace_length]
  · exact noisyProfile_mem_unit _ _ _ _
  · exact noisyProfile_mem_unit _ _ _ _
  · exact noisyProfile_mem_unit _ _ _ _

/-- Witness for C9 at a concrete input. -/
theorem c9_witness :
    (['A'] : List Char) ≠ [] ∧
      (∃ pr, compute_profiles defaultExtractor ['A'] noise0 = Except.ok pr ∧
        pr.hydrophobicity.length = (['A'] : List Char).length ∧
        pr.polarity.length = (['A'] : List Char).length ∧
        pr.molecular_weight.length = (['A'] : List Char).length ∧
        (∀ q ∈ pr.hydrophobicity, 0 ≤ q ∧ q ≤ 1) ∧
        (∀ q ∈ pr.polarity, 0 ≤ q ∧ q ≤ 1) ∧
        (∀ q ∈ pr.molecular_weight, 0 ≤ q ∧ q ≤ 1)) :=
  ⟨by decide, c9_feature_profile defaultExtractor ['A'] noise0 (by decide)⟩

/-- Hydrophobicity output of a run on a one-character sequence with at
least one requested model name, in terms of the overridden smoothing. -/
theorem run_hydro_single (p : PredictionPipeline) (a : Char) (nm : String)
    (nms : List String) (config : Option Config) (o : Oracles) :
    resultHydro ((PredictionPipeline.run p [a] (nm :: nms) config o).1) =
      [pyRound (clip01 ((1 - (applyConfig p.extractor config).smoothing) * (1/5) +
        (applyConfig p.extractor config).smoothing *
          ((1/5) + (15/100) * o.noise.hydro 0))) 3] := by
  rw [run_cons]
  show (profileBody (applyConfig p.extractor config) [a] o.noise).hydrophobicity = _
  rw [profileBody]
  simp only [List.length_cons, List.length_nil, linspace, List.range_succ,
    List.range_zero, List.nil_append, List.map_cons, List.map_nil, noisyProfile,
    List.enum, List.enumFrom]
  norm_num

/-- CLAIM C2, counterexample: the spec's own scenario refuted. A first run
with `config = {smoothing: 0.9}` leaks into a second run with no config on
the same pipeline instance: the second run's hydrophobicity profile
(identical sequence, models and noise draws) differs from the one a fresh
pipeline produces with its defaults. -/
theorem c2_leak_counterexample :
    resultHydro ((PredictionPipeline.run
          (PredictionPipeline.run pipelineInit ['A'] ["Unknown-Model"] cfgSmooth9 oracles1).2
          ['A'] ["Unknown-Model"] none oracles1).1) ≠
      resultHydro ((PredictionPipeline.run pipelineInit ['A'] ["Unknown-Model"] none oracles1).1) := by
  have e9 : (PredictionPipeline.run pipelineInit ['A'] ["Unknown-Model"] cfgSmooth9 oracles1).2 =
      { extractor := { window_size := 7, smoothing := 9/10 } } := rfl
  rw [e9, run_hydro_single, run_hydro_single]
  have ha : (applyConfig ({ window_size := 7, smoothing := 9/10 } : FeatureExtractor) none).smoothing
      = 9/10 := rfl
  have hb : (applyConfig pipelineInit.extractor none).smoothing = 1/2 := rfl
  have hn : oracles1.noise.hydro 0 = 1 := rfl
  rw [ha, hb, hn]
  rw [show (1 - 9/10 : ℚ) * (1/5) + (9/10) * ((1/5) + (15/100) * 1) = 67/200 by norm_num]
  rw [show (1 - 1/2 : ℚ) * (1/5) + (1/2) * ((1/5) + (15/100) * 1) = 11/40 by norm_num]
  rw [clip01_eq_self (by norm_num) (by norm_num),
    clip01_eq_self (by norm_num) (by norm_num)]
  rw [pyRound_eval _ _ 335 (by norm_num), pyRound_eval _ _ 275 (by norm_num)]
  norm_num

/-- One `counterAdd` step raises the total value sum by exactly one. -/
theorem counterAdd_sum (acc : List (String × ℕ)) (s : String) :
    ((counterAdd acc s).map Prod.snd).sum = (acc.map Prod.snd).sum + 1 := by
  induction acc with
  | nil => rfl
  | cons p rest ih =>
      obtain ⟨t, c⟩ := p
      by_cases h : t = s <;>
        · simp [counterAdd, h, List.map_cons, List.sum_cons, ih]
          omega

/-- The Counter fold's total value sum is the number of counted states. -/
theorem foldl_counter_sum (states : List String) :
    ∀ acc, (((states.foldl counterAdd acc).map Prod.snd).sum) =
      (acc.map Prod.snd).sum + states.length := by
  induction states with
  | nil => intro acc; simp
  | cons st rest ih =>
      intro acc
      rw [List.foldl_cons, ih, counterAdd_sum]
      simp only [List.length_cons]
      omega

/-- One `counterAdd` step raises exactly the added key's entry count. -/
theorem counterAdd_entryCount (acc : List (String × ℕ)) (t s : String) :
    entryCount (counterAdd acc t) s = entryCount acc s + (if t = s then 1 else 0) := by
  induction acc with
  | nil => by_cases h : t = s <;> simp [counterAdd, entryCount, h]
  | cons p rest ih =>
      obtain ⟨u, c⟩ := p
      simp only [counterAdd]
      by_cases hut : u = t
      · subst hut
        rw [if_pos rfl]
        by_cases hus : u = s
        · subst hus
          simp [entryCount]
          omega
        · simp [entryCount, hus]
      · rw [if_neg hut]
        simp only [entryCount, ih]
        omega

/-- The Counter fold's entry for a key counts that key's occurrences. -/
theorem foldl_entryCount (states : List String) :
    ∀ (acc : List (String × ℕ)) (s : String),
      entryCount (states.foldl counterAdd acc) s = entryCount acc s + states.count s := by
  induction states with
  | nil => intro acc s; simp
  | cons st rest ih =>
      intro acc s
      rw [List.foldl_cons, ih, counterAdd_entryCount, List.count_cons]
      by_cases h : st = s
      · simp [h]
        omega
      · simp [h]

/-- Keys of a cons cell of a counter list. -/
theorem keysOf_cons (u : String) (c : ℕ) (l : List (String × ℕ)) :
    keysOf ((u, c) :: l) = u :: keysOf l := rfl

/-- Keys after a `counterAdd` step: unchanged for a seen key, appended for
a new key. -/
theorem counterAdd_keysOf (acc : List (String × ℕ)) (t : String) :
    keysOf (counterAdd acc t) =
      if t ∈ keysOf acc then keysOf acc else keysOf acc ++ [t] := by
  induction acc with
  | nil => simp [counterAdd, keysOf]
  | cons p rest ih =>
      obtain ⟨u, c⟩ := p
      by_cases hut : u = t
      · subst hut
        rw [show counterAdd ((u, c) :: rest) u = (u, c + 1) :: rest by simp [counterAdd]]
        rw [keysOf_cons, keysOf_cons, if_pos (by simp)]
      · rw [show counterAdd ((u, c) :: rest) t = (u, c) :: counterAdd rest t by
          simp [counterAdd, hut]]
        rw [keysOf_cons, keysOf_cons, ih]
        have hiff : (t ∈ u :: keysOf rest) ↔ t ∈ keysOf rest := by
          constructor
          · intro h
            rcases List.mem_cons.mp h with h | h
            · exact absurd h.symm hut
            · exact h
          · exact fun h => List.mem_cons_of_mem _ h
        by_cases hmem : t ∈ keysOf rest
        · rw [if_pos hmem, if_pos (hiff.mpr hmem)]
        · rw [if_neg hmem, if_neg (fun hh => hmem (hiff.mp hh)), List.cons_append]

/-- A `counterAdd` step preserves duplicate-freedom of the keys. -/
theorem counterAdd_nodup (acc : List (String × ℕ)) (t : String)
    (h : (keysOf acc).Nodup) : (keysOf (counterAdd acc t)).Nodup := by
  rw [counterAdd_keysOf]
  by_cases hmem : t ∈ keysOf acc
  · simp [hmem, h]
  · simp [hmem, List.nodup_append, h]

/-- The Counter fold keeps keys duplicate-free. -/
theorem foldl_nodup (states : List String) :
    ∀ acc, (keysOf acc).Nodup → (keysOf (states.foldl counterAdd acc)).Nodup := by
  induction states with
  | nil => intro acc h; exact h
  | cons st rest ih =>
      intro acc h
      exact ih (counterAdd acc st) (counterAdd_nodup acc st h)

/-- A `counterAdd` step keeps all entry values positive. -/
theorem counterAdd_pos (acc : List (String × ℕ)) (t : String)
    (h : ∀ p ∈ acc, 0 < p.2) : ∀ p ∈ counterAdd acc t, 0 < p.2 := by
  induction acc with
  | nil =>
      intro p hp
      simp [counterAdd] at hp
      simp [hp]
  | cons hd rest ih =>
      obtain ⟨u, c⟩ := hd
      intro p hp
      by_cases hut : u = t
      · simp [counterAdd, hut] at hp
        rcases hp with hp | hp
        · simp [hp]
        · exact h p (List.mem_cons_of_mem _ hp)
      · simp only [counterAdd, if_neg hut, List.mem_cons] at hp
        rcases hp with hp | hp
        · exact hp ▸ h (u, c) (List.mem_cons_self _ _)
        · exact ih (fun r hr => h r (List.mem_cons_of_mem _ hr)) p hp

/-- The Counter fold keeps all entry values positive. -/
theorem foldl_pos (states : List String) :
    ∀ acc, (∀ p ∈ acc, 0 < p.2) → ∀ p ∈ states.foldl counterAdd acc, 0 < p.2 := by
  induction states with
  | nil => intro acc h; exact h
  | cons st rest ih =>
      intro acc h
      exact ih (counterAdd acc st) (counterAdd_pos acc st h)

/-- A key absent from the keys contributes a zero entry count. -/
theorem entryCount_eq_zero_of_not_mem (lst : List (String × ℕ)) (s : String)
    (h : s ∉ keysOf lst) : entryCount lst s = 0 := by
  induction lst with
  | nil => rfl
  | cons p rest ih =>
      obtain ⟨t, c⟩ := p
      have ht : t ≠ s := by
        intro he
        exact h (by simp [keysOf, he])
      have hrest : s ∉ keysOf rest := by
        intro he
        exact h (by simp [keysOf] at he ⊢; exact Or.inr he)
      simp [entryCount, ht, ih hrest]

/-- With duplicate-free keys, membership determines the entry count. -/
theorem entryCount_of_mem {lst : List (String × ℕ)} {s : String} {c : ℕ}
    (hnd : (keysOf lst).Nodup) (h : (s, c) ∈ lst) : entryCount lst s = c := by
  induction lst with
  | nil => exact absurd h (List.not_mem_nil _)
  | cons p rest ih =>
      obtain ⟨u, c'⟩ := p
      rw [keysOf_cons] at hnd
      have hnd' : (keysOf rest).Nodup := (List.nodup_cons.mp hnd).2
      have hu : u ∉ keysOf rest := (List.nodup_cons.mp hnd).1
      rcases List.mem_cons.mp h with he | hm
      · have h1 : s = u := congrArg Prod.fst he
        have h2 : c = c' := congrArg Prod.snd he
        subst h1
        subst h2
        simp [entryCount, entryCount_eq_zero_of_not_mem rest _ hu]
      · have hs : s ∈ keysOf rest := List.mem_map.mpr ⟨(s, c), hm, rfl⟩
        have hus : u ≠ s := fun he' => hu (he' ▸ hs)
        simp [entryCount, hus, ih hnd' hm]

/-- A nonzero entry count exhibits a member with that key. -/
theorem exists_mem_of_entryCount_ne {lst : List (String × ℕ)} {s : String}
    (h : entryCount lst s ≠ 0) : ∃ c, (s, c) ∈ lst := by
  induction lst with
  | nil => exact absurd rfl h
  | cons p rest ih =>
      obtain ⟨u, c'⟩ := p
      by_cases hus : u = s
      · exact ⟨c', by simp [hus]⟩
      · rw [entryCount, if_neg hus, Nat.zero_add] at h
        obtain ⟨c, hc⟩ := ih h
        exact ⟨c, List.mem_cons_of_mem _ hc⟩

/-- Full characterization of Counter membership: an entry is present
exactly for the states that occur, and carries the occurrence count. -/
theorem stateCounter_mem_iff (states : List String) (s : String) (c : ℕ) :
    (s, c) ∈ stateCounter states ↔ states.count s = c ∧ c ≠ 0 := by
  have hnd : (keysOf (stateCounter states)).Nodup :=
    foldl_nodup states [] (by simp [keysOf])
  have hpos : ∀ p ∈ stateCounter states, 0 < p.2 :=
    foldl_pos states [] (by simp)
  have hec : entryCount (stateCounter states) s = states.count s := by
    rw [stateCounter, foldl_entryCount]
    simp [entryCount]
  constructor
  · intro h
    have h1 : entryCount (stateCounter states) s = c := entryCount_of_mem hnd h
    have h2 : 0 < c := hpos (s, c) h
    exact ⟨by rw [← hec, h1], by omega⟩
  · rintro ⟨hc, hne⟩
    have hz : entryCount (stateCounter states) s ≠ 0 := by
      rw [hec, hc]; exact hne
    obtain ⟨c', hc'⟩ := exists_mem_of_entryCount_ne hz
    have he : c' = c := by
      have h1 := entryCount_of_mem hnd hc'
      rw [hec] at h1
      omega
    exact he ▸ hc'

/-- Counting a state among the mapped states equals counting the records
that carry it. -/
theorem countState_bridge (l : List ResiduePrediction) (s : String) :
    (l.map fun r => r.state).count s = countState s l := by
  induction l with
  | nil => rfl
  | cons r rest ih =>
      simp only [List.map_cons, List.count_cons, countState, List.filter_cons] at *
      by_cases h : r.state = s
      · simp [h, ih]
      · simp [h, ih]

/-- The record count bounds each state's record count. -/
theorem countState_le_length (l : List ResiduePrediction) (s : String) :
    countState s l ≤ l.length := List.length_filter_le _ l

/-- CLAIM C8: the distribution is empty on an empty merged list (the `or 1`
divisor guard), and otherwise holds exactly one entry per occurring state,
equal to that state's record count divided by the total record count, times
100, rounded half-to-even to one decimal place. -/
theorem c8_distribution :
    calcDistribution [] = [] ∧
      ∀ (l : List ResiduePrediction) (s : String) (q : ℚ),
        ((s, q) ∈ calcDistribution l ↔
          countState s l ≠ 0 ∧
            q = pyRound ((countState s l : ℚ) / (l.length : ℚ) * 100) 1) := by
  refine ⟨rfl, ?_⟩
  intro l s q
  have hsum : ((stateCounter (l.map fun r => r.state)).map Prod.snd).sum = l.length := by
    rw [stateCounter, foldl_counter_sum]
    simp
  constructor
  · intro hmem
    simp only [calcDistribution, List.mem_map] at hmem
    obtain ⟨p, hp, heq⟩ := hmem
    rw [Prod.ext_iff] at heq
    obtain ⟨h1, h2⟩ := heq
    dsimp at h1 h2
    have hps : (s, p.2) ∈ stateCounter (l.map fun r => r.state) := by
      rw [← h1]
      exact hp
    obtain ⟨hcnt, hne⟩ := (stateCounter_mem_iff _ _ _).mp hps
    rw [countState_bridge] at hcnt
    have hc : countState s l ≠ 0 := by omega
    have hlen : l.length ≠ 0 := by
      have := countState_le_length l s
      omega
    refine ⟨hc, ?_⟩
    rw [hsum, if_neg hlen, ← hcnt] at h2
    exact h2.symm
  · rintro ⟨hc, hq⟩
    have hlen : l.length ≠ 0 := by
      have := countState_le_length l s
      omega
    have hmemC : (s, countState s l) ∈ stateCounter (l.map fun r => r.state) :=
      (stateCounter_mem_iff _ _ _).mpr ⟨countState_bridge l s, hc⟩
    simp only [calcDistribution, List.mem_map]
    refine ⟨(s, countState s l), hmemC, ?_⟩
    dsimp only
    rw [hsum, if_neg hlen, hq]
